import Mathlib

/-!
Verification of `.github/scripts/compose_repro_matrix.py`.

The script reads a platform map (platform name to runner-label list) and a
list of repro test cases, resolves for each case the set of runner labels it
should execute on, and emits a sorted job matrix together with diagnostics
(skipped cases, unknown platforms, unknown labels).

The embedding below mirrors the Python source.  Python sets are modelled as
`Finset String` (all set operations in the script are order-insensitive),
Python dicts as association lists with replace-or-append insertion, and
Python string comparison as code-point lexicographic order on the character
list.  `str.lower` is modelled with `Char.toLower`, which agrees with Python
on basic-latin text (the script only lowercases ASCII platform identifiers).
-/

namespace ComposeReproMatrix

/-- Python `str.lower`, character by character. -/
def lowerStr (s : String) : String := ⟨s.data.map Char.toLower⟩

/-- Python string `<`: code-point lexicographic comparison. -/
def charListLt : List Char → List Char → Bool
  | [], [] => false
  | [], _ :: _ => true
  | _ :: _, [] => false
  | a :: as, b :: bs => if a < b then true else if b < a then false else charListLt as bs

/-- Python string `<=`: code-point lexicographic comparison. -/
def charListLe : List Char → List Char → Bool
  | [], _ => true
  | _ :: _, [] => false
  | a :: as, b :: bs => if a < b then true else if b < a then false else charListLe as bs

/-- Strict order on strings, as Python compares strings. -/
def strLt (a b : String) : Prop := charListLt a.data b.data = true

/-- Reflexive order on strings, as Python compares strings. -/
def strLe (a b : String) : Prop := charListLe a.data b.data = true

instance : DecidableRel strLt := fun _ _ => inferInstanceAs (Decidable (_ = true))

instance : DecidableRel strLe := fun _ _ => inferInstanceAs (Decidable (_ = true))

theorem charListLe_cons (a b : Char) (as bs : List Char) :
    charListLe (a :: as) (b :: bs) =
      if a < b then true else if b < a then false else charListLe as bs := rfl

theorem charListLt_cons (a b : Char) (as bs : List Char) :
    charListLt (a :: as) (b :: bs) =
      if a < b then true else if b < a then false else charListLt as bs := rfl

theorem charListLe_total : ∀ as bs : List Char, charListLe as bs = true ∨ charListLe bs as = true
  | [], _ => Or.inl rfl
  | _ :: _, [] => Or.inr rfl
  | a :: as, b :: bs => by
    rcases lt_trichotomy a b with h | h | h
    · left; rw [charListLe_cons, if_pos h]
    · subst h
      rcases charListLe_total as bs with ih | ih
      · left; rw [charListLe_cons, if_neg (lt_irrefl a), if_neg (lt_irrefl a)]; exact ih
      · right; rw [charListLe_cons, if_neg (lt_irrefl a), if_neg (lt_irrefl a)]; exact ih
    · right; rw [charListLe_cons, if_pos h]

theorem charListLe_trans :
    ∀ as bs cs : List Char, charListLe as bs = true → charListLe bs cs = true →
      charListLe as cs = true
  | [], _, _, _, _ => rfl
  | _ :: _, [], _, h, _ => by cases h
  | _ :: _, _ :: _, [], _, h => by cases h
  | a :: as, b :: bs, c :: cs, h1, h2 => by
    rw [charListLe_cons] at h1 h2 ⊢
    rcases lt_trichotomy a b with hab | hab | hab
    · rcases lt_trichotomy b c with hbc | hbc | hbc
      · rw [if_pos (lt_trans hab hbc)]
      · subst hbc; rw [if_pos hab]
      · rw [if_neg (lt_asymm hbc), if_pos hbc] at h2; cases h2
    · subst hab
      rw [if_neg (lt_irrefl a), if_neg (lt_irrefl a)] at h1
      rcases lt_trichotomy a c with hac | hac | hac
      · rw [if_pos hac]
      · subst hac
        rw [if_neg (lt_irrefl a), if_neg (lt_irrefl a)] at h2 ⊢
        exact charListLe_trans as bs cs h1 h2
      · rw [if_neg (lt_asymm hac), if_pos hac] at h2; cases h2
    · rw [if_neg (lt_asymm hab), if_pos hab] at h1; cases h1

theorem charListLe_antisymm :
    ∀ as bs : List Char, charListLe as bs = true → charListLe bs as = true → as = bs
  | [], [], _, _ => rfl
  | [], _ :: _, _, h => by cases h
  | _ :: _, [], h, _ => by cases h
  | a :: as, b :: bs, h1, h2 => by
    rw [charListLe_cons] at h1 h2
    rcases lt_trichotomy a b with hab | hab | hab
    · rw [if_neg (lt_asymm hab), if_pos hab] at h2; cases h2
    · subst hab
      rw [if_neg (lt_irrefl a), if_neg (lt_irrefl a)] at h1 h2
      rw [charListLe_antisymm as bs h1 h2]
    · rw [if_neg (lt_asymm hab), if_pos hab] at h1; cases h1

theorem charListLt_iff :
    ∀ as bs : List Char, charListLt as bs = true ↔ (charListLe as bs = true ∧ as ≠ bs)
  | [], [] => by simp [charListLt, charListLe]
  | [], _ :: _ => by simp [charListLt, charListLe]
  | _ :: _, [] => by simp [charListLt, charListLe]
  | a :: as, b :: bs => by
    rw [charListLt_cons, charListLe_cons]
    rcases lt_trichotomy a b with hab | hab | hab
    · rw [if_pos hab, if_pos hab]
      constructor
      · intro _
        exact ⟨rfl, fun h => ne_of_lt hab (List.cons.inj h).1⟩
      · intro _
        rfl
    · subst hab
      rw [if_neg (lt_irrefl a), if_neg (lt_irrefl a), if_neg (lt_irrefl a),
        if_neg (lt_irrefl a), charListLt_iff as bs]
      constructor
      · rintro ⟨h1, h2⟩
        exact ⟨h1, fun h => h2 (List.cons.inj h).2⟩
      · rintro ⟨h1, h2⟩
        refine ⟨h1, fun h => h2 ?_⟩
        rw [h]
    · rw [if_neg (lt_asymm hab), if_pos hab, if_neg (lt_asymm hab), if_pos hab]
      simp

instance : IsTotal String strLe := ⟨fun a b => charListLe_total a.data b.data⟩

instance : IsTrans String strLe := ⟨fun a b c => charListLe_trans a.data b.data c.data⟩

instance : IsAntisymm String strLe := by
  refine ⟨fun a b h1 h2 => ?_⟩
  cases a with
  | mk da => cases b with
    | mk db => exact congrArg String.mk (charListLe_antisymm da db h1 h2)

theorem strLt_iff (a b : String) : strLt a b ↔ (strLe a b ∧ a ≠ b) := by
  unfold strLt strLe
  rw [charListLt_iff a.data b.data]
  cases a with
  | mk da => cases b with
    | mk db =>
      constructor
      · rintro ⟨h1, h2⟩
        exact ⟨h1, fun h => h2 (congrArg String.data h)⟩
      · rintro ⟨h1, h2⟩
        exact ⟨h1, fun h => h2 (congrArg String.mk h)⟩

/-- Sort the underlying multiset of a finite set of strings into a list,
ascending, as Python `sorted` does on a set of strings. -/
def msortStr (s : Multiset String) : List String :=
  Quot.liftOn s (fun l => l.insertionSort strLe) fun a b h =>
    List.eq_of_perm_of_sorted
      ((List.perm_insertionSort _ a).trans (h.trans (List.perm_insertionSort _ b).symm))
      (List.sorted_insertionSort _ a) (List.sorted_insertionSort _ b)

/-- Python `sorted` on a set of strings. -/
def finSort (s : Finset String) : List String := msortStr s.val

/-- Association-list model of a Python `dict`: lookup returns the value of
the first (hence unique, with `dictInsert`-built lists) matching key. -/
def dictLookup {α : Type} (d : List (String × α)) (k : String) : Option α :=
  match d with
  | [] => none
  | p :: rest => if p.1 = k then some p.2 else dictLookup rest k

/-- Python `d[k] = v`: replace the value at an existing key in place,
otherwise append the new binding. -/
def dictInsert {α : Type} (d : List (String × α)) (k : String) (v : α) : List (String × α) :=
  match d with
  | [] => [(k, v)]
  | p :: rest => if p.1 = k then (k, v) :: rest else p :: dictInsert rest k v

/-- The keys of a Python `dict`. -/
def dictKeys {α : Type} (d : List (String × α)) : List String := d.map Prod.fst

/-- A JSON scalar as it can appear inside a constraint list: a string, or
any non-string value (number, boolean, nested structure), which the script
ignores through its `isinstance(item, str)` guards. -/
inductive JVal where
  | str (s : String)
  | other
deriving DecidableEq

/-- A JSON field as read with `dict.get`: the key may be absent, hold
`null`, hold a list, or hold a single scalar (which `as_iterable` wraps
into a one-element list). -/
inductive JField where
  | absent
  | null
  | list (items : List JVal)
  | scalar (v : JVal)
deriving DecidableEq

/-- `as_iterable` (lines 7-12), applied to the value of a field. -/
def JField.asIterable : JField → List JVal
  | .absent => []
  | .null => []
  | .list l => l
  | .scalar v => [v]

/-- Whether the key is present in the underlying JSON object. -/
def JField.present : JField → Bool
  | .absent => false
  | _ => true

/-- The `os` constraint object of a test case.  `otherKeys` records whether
the object carries further, unrelated keys; they make the dict truthy in
`if os_constraints:` (line 124) without affecting the four constraint
lists.  An absent or `null` `os` field is represented by the all-absent
object, exactly what `repro.get("os") or {}` produces. -/
structure OsDict where
  includePlatforms : JField
  includeLabels : JField
  excludePlatforms : JField
  excludeLabels : JField
  otherKeys : Bool
deriving DecidableEq

/-- Python truthiness of the `os` dict: it is nonempty as an object. -/
def OsDict.truthy (o : OsDict) : Bool :=
  o.otherKeys || o.includePlatforms.present || o.includeLabels.present ||
    o.excludePlatforms.present || o.excludeLabels.present

/-- One entry of the `repros` list. -/
structure Repro where
  name : Option String
  id : Option String
  supports : JField
  os : OsDict
deriving DecidableEq

/-- `repro.get("name") or repro.get("id")` followed by the `if not name`
guard (lines 53-55): the first present and non-empty of the two, if any. -/
def reproName (r : Repro) : Option String :=
  let n := match r.name with
    | some s => if s = "" then r.id else some s
    | none => r.id
  match n with
  | some s => if s = "" then none else some s
  | none => none

/-- A lowercasing string-filtered set comprehension, as in
`{str(item).lower() for item in items if isinstance(item, str)}`. -/
def strSetLower (items : List JVal) : Finset String :=
  (items.filterMap fun v => match v with
    | .str s => some (lowerStr s)
    | .other => none).toFinset

/-- A string-filtered set comprehension; labels keep their case. -/
def strSet (items : List JVal) : Finset String :=
  (items.filterMap fun v => match v with
    | .str s => some s
    | .other => none).toFinset

/-- Inner loop of the index builder (lines 27-29): append one label to the
current platform's list and point the label at the platform. -/
def indexInner (normalized : String)
    (acc : List (String × List String) × List (String × String)) (label : String) :
    List (String × List String) × List (String × String) :=
  (dictInsert acc.1 normalized ((dictLookup acc.1 normalized).getD [] ++ [label]),
   dictInsert acc.2 label normalized)

/-- One iteration of `for platform, labels in os_matrix.items()`
(lines 24-29). -/
def indexStep (acc : List (String × List String) × List (String × String))
    (entry : String × List String) :
    List (String × List String) × List (String × String) :=
  entry.2.foldl (indexInner (lowerStr entry.1)) (dictInsert acc.1 (lowerStr entry.1) [], acc.2)

/-- Lines 24-29: build `platform_labels` and `label_platform` from the
platform map, an ordered list of JSON object entries (distinct keys may
still collide after lowercasing). -/
def buildIndex (osMatrix : List (String × List String)) :
    List (String × List String) × List (String × String) :=
  osMatrix.foldl indexStep ([], [])

/-- Line 31: `all_labels = set(label_platform.keys())`. -/
def allLabelsOf (lp : List (String × String)) : Finset String := (dictKeys lp).toFinset

/-- `collect_labels` (lines 41-50), set-theoretically: first component the
labels gathered from the known platforms among `items`, second component
the lowercased unknown identifiers the loop adds to both the local and the
global unknown-platform sets.  The Python loop iterates a set and builds
sets by commutative insertions, so iteration order is irrelevant. -/
def collectLabels (platformLabels : List (String × List String)) (items : Finset String) :
    Finset String × Finset String :=
  (items.biUnion fun item =>
      match dictLookup platformLabels (lowerStr item) with
      | some ls => ls.toFinset
      | none => ∅,
   (items.filter fun item => dictLookup platformLabels (lowerStr item) = none).image lowerStr)

/-- Per-case accumulator: the running candidate set and the case-local
unknown-platform and unknown-label sets. -/
structure ResolveState where
  candidates : Finset String
  localUnknownPlatforms : Finset String
  localUnknownLabels : Finset String
deriving DecidableEq

/-- Lines 63-66: seed the candidate set from the normalized `supports`. -/
def stepSupports (platformLabels : List (String × List String)) (allLabels : Finset String)
    (normalizedSupports : Finset String) : ResolveState :=
  if normalizedSupports = ∅ ∨ "any" ∈ normalizedSupports then
    ⟨allLabels, ∅, ∅⟩
  else
    let c := collectLabels platformLabels normalizedSupports
    ⟨c.1, c.2, ∅⟩

/-- Lines 90-91: `includePlatforms` intersection. -/
def stepIncludePlatforms (platformLabels : List (String × List String))
    (includePlatforms : Finset String) (s : ResolveState) : ResolveState :=
  if includePlatforms = ∅ then s
  else
    let c := collectLabels platformLabels includePlatforms
    ⟨s.candidates ∩ c.1, s.localUnknownPlatforms ∪ c.2, s.localUnknownLabels⟩

/-- Lines 93-97: `includeLabels` intersection; when no requested label is
known the candidate set is intersected with the empty set. -/
def stepIncludeLabels (labelPlatform : List (String × String))
    (includeLabels : Finset String) (s : ResolveState) : ResolveState :=
  if includeLabels = ∅ then s
  else
    let recognized := includeLabels.filter fun label =>
      (dictLookup labelPlatform label).isSome = true
    let unknown := includeLabels.filter fun label => dictLookup labelPlatform label = none
    ⟨s.candidates ∩ (if recognized = ∅ then ∅ else recognized),
     s.localUnknownPlatforms, s.localUnknownLabels ∪ unknown⟩

/-- Lines 99-100: `excludePlatforms` subtraction. -/
def stepExcludePlatforms (platformLabels : List (String × List String))
    (excludePlatforms : Finset String) (s : ResolveState) : ResolveState :=
  if excludePlatforms = ∅ then s
  else
    let c := collectLabels platformLabels excludePlatforms
    ⟨s.candidates \ c.1, s.localUnknownPlatforms ∪ c.2, s.localUnknownLabels⟩

/-- Lines 102-107: `excludeLabels` subtraction; unknown entries are
recorded but subtract nothing. -/
def stepExcludeLabels (labelPlatform : List (String × String))
    (excludeLabels : Finset String) (s : ResolveState) : ResolveState :=
  if excludeLabels = ∅ then s
  else
    let recognized := excludeLabels.filter fun label =>
      (dictLookup labelPlatform label).isSome = true
    let unrecognized := excludeLabels.filter fun label => dictLookup labelPlatform label = none
    ⟨s.candidates \ recognized, s.localUnknownPlatforms, s.localUnknownLabels ∪ unrecognized⟩

/-- Line 109: the final clamp `candidate_labels &= all_labels`. -/
def stepClamp (allLabels : Finset String) (s : ResolveState) : ResolveState :=
  ⟨s.candidates ∩ allLabels, s.localUnknownPlatforms, s.localUnknownLabels⟩

/-- Line 58: the normalized `supports` set of a case. -/
def normSupports (r : Repro) : Finset String := strSetLower r.supports.asIterable

/-- Lines 69-73: the normalized `includePlatforms` set of a case. -/
def includePlatformsOf (r : Repro) : Finset String :=
  strSetLower r.os.includePlatforms.asIterable

/-- Lines 74-78: the `includeLabels` set of a case. -/
def includeLabelsOf (r : Repro) : Finset String := strSet r.os.includeLabels.asIterable

/-- Lines 79-83: the normalized `excludePlatforms` set of a case. -/
def excludePlatformsOf (r : Repro) : Finset String :=
  strSetLower r.os.excludePlatforms.asIterable

/-- Lines 84-88: the `excludeLabels` set of a case. -/
def excludeLabelsOf (r : Repro) : Finset String := strSet r.os.excludeLabels.asIterable

/-- Lines 57-109: full resolution of one test case. -/
def resolveCase (platformLabels : List (String × List String))
    (labelPlatform : List (String × String)) (allLabels : Finset String) (r : Repro) :
    ResolveState :=
  stepClamp allLabels
    (stepExcludeLabels labelPlatform (excludeLabelsOf r)
      (stepExcludePlatforms platformLabels (excludePlatformsOf r)
        (stepIncludeLabels labelPlatform (includeLabelsOf r)
          (stepIncludePlatforms platformLabels (includePlatformsOf r)
            (stepSupports platformLabels allLabels (normSupports r))))))

/-- Python `repr` of a string containing no quote characters. -/
def pyStrRepr (s : String) : String := "\x27" ++ s ++ "\x27"

/-- Python `str` of a list of such strings. -/
def pyListRepr (l : List String) : String :=
  "[" ++ String.intercalate ", " (l.map pyStrRepr) ++ "]"

/-- Lines 121-130: compose the skip reason of a case with an empty final
candidate set. -/
def skipReason (normalizedSupports : Finset String) (osTruthy : Bool)
    (localUnknownPlatforms localUnknownLabels : Finset String) : String :=
  let segments :=
    (if normalizedSupports = ∅ then [] else
      ["supports=" ++ pyListRepr (finSort normalizedSupports)]) ++
    (if osTruthy then ["os constraints applied"] else []) ++
    (if localUnknownPlatforms = ∅ then [] else
      ["unknown platforms=" ++ pyListRepr (finSort localUnknownPlatforms)]) ++
    (if localUnknownLabels = ∅ then [] else
      ["unknown labels=" ++ pyListRepr (finSort localUnknownLabels)])
  let reason := String.intercalate "; " segments
  if reason = "" then "no matching runners" else reason

/-- One emitted matrix entry (lines 113-119). -/
structure MatrixEntry where
  os : String
  repro : String
  platform : String
deriving DecidableEq

/-- Lines 111-119: emit one entry per label of the candidate set, in
sorted label order.  `label_platform[label]` always succeeds there because
the candidate set was clamped to `all_labels`; the `getD` default is never
reached. -/
def mkEntries (labelPlatform : List (String × String)) (name : String)
    (candidates : Finset String) : List MatrixEntry :=
  (finSort candidates).map fun label =>
    ⟨label, name, (dictLookup labelPlatform label).getD ""⟩

/-- The matrix entries contributed by one test case. -/
def entriesOfCase (platformLabels : List (String × List String))
    (labelPlatform : List (String × String)) (allLabels : Finset String) (r : Repro) :
    List MatrixEntry :=
  match reproName r with
  | none => []
  | some name =>
    let res := resolveCase platformLabels labelPlatform allLabels r
    if res.candidates = ∅ then [] else mkEntries labelPlatform name res.candidates

/-- The skipped-list entries contributed by one test case. -/
def skippedOfCase (platformLabels : List (String × List String))
    (labelPlatform : List (String × String)) (allLabels : Finset String) (r : Repro) :
    List String :=
  match reproName r with
  | none => []
  | some name =>
    let res := resolveCase platformLabels labelPlatform allLabels r
    if res.candidates = ∅ then
      [name ++ " (" ++ skipReason (normSupports r) r.os.truthy
        res.localUnknownPlatforms res.localUnknownLabels ++ ")"]
    else []

/-- The unknown-platform identifiers contributed by one test case to the
run-wide diagnostics. -/
def caseUnknownPlatforms (platformLabels : List (String × List String))
    (labelPlatform : List (String × String)) (allLabels : Finset String) (r : Repro) :
    Finset String :=
  match reproName r with
  | none => ∅
  | some _ => (resolveCase platformLabels labelPlatform allLabels r).localUnknownPlatforms

/-- The unknown-label identifiers contributed by one test case to the
run-wide diagnostics. -/
def caseUnknownLabels (platformLabels : List (String × List String))
    (labelPlatform : List (String × String)) (allLabels : Finset String) (r : Repro) :
    Finset String :=
  match reproName r with
  | none => ∅
  | some _ => (resolveCase platformLabels labelPlatform allLabels r).localUnknownLabels

/-- The run-wide accumulators of `main` (lines 36-39). -/
structure RunState where
  matrixEntries : List MatrixEntry
  skipped : List String
  unknownPlatforms : Finset String
  unknownLabels : Finset String
deriving DecidableEq

/-- One iteration of the `for repro in repros` loop (lines 52-131).  The
global unknown sets receive exactly the case-local unknown identifiers:
`collect_labels` adds every unknown platform to both sets at once, and the
unknown labels of lines 95-96 and 105-107 are likewise added to both. -/
def processRepro (platformLabels : List (String × List String))
    (labelPlatform : List (String × String)) (allLabels : Finset String)
    (st : RunState) (r : Repro) : RunState :=
  match reproName r with
  | none => st
  | some name =>
    let res := resolveCase platformLabels labelPlatform allLabels r
    let st1 : RunState :=
      { st with
        unknownPlatforms := st.unknownPlatforms ∪ res.localUnknownPlatforms,
        unknownLabels := st.unknownLabels ∪ res.localUnknownLabels }
    if res.candidates = ∅ then
      { st1 with
        skipped := st1.skipped ++
          [name ++ " (" ++ skipReason (normSupports r) r.os.truthy
            res.localUnknownPlatforms res.localUnknownLabels ++ ")"] }
    else
      { st1 with
        matrixEntries := st1.matrixEntries ++ mkEntries labelPlatform name res.candidates }

/-- The sort key order of line 133: lexicographic on `(repro, os)`, as
Python compares the key tuples. -/
def entryLe (a b : MatrixEntry) : Prop :=
  strLt a.repro b.repro ∨ (a.repro = b.repro ∧ strLe a.os b.os)

/-- Strict lexicographic order on `(repro, os)`. -/
def entryLt (a b : MatrixEntry) : Prop :=
  strLt a.repro b.repro ∨ (a.repro = b.repro ∧ strLt a.os b.os)

instance : DecidableRel entryLe := fun _ _ => inferInstanceAs (Decidable (_ ∨ _))

instance : DecidableRel entryLt := fun _ _ => inferInstanceAs (Decidable (_ ∨ _))

/-- Line 133: sort the accumulated entries by `(repro, os)`.  `list.sort`
with a key function is a stable ascending sort by the key; with this key,
two key-equal entries are fully equal (same label, hence same platform),
so any ascending resorting, insertion sort included, yields the same
list. -/
def sortState (st : RunState) : RunState :=
  { st with matrixEntries := st.matrixEntries.insertionSort entryLe }

/-- Lines 20-133 of `main`, up to serialization: index building, per-case
resolution, and the final stable ascending sort. -/
def computeRun (osMatrix : List (String × List String)) (repros : List Repro) : RunState :=
  sortState (repros.foldl
    (processRepro (buildIndex osMatrix).1 (buildIndex osMatrix).2
      (allLabelsOf (buildIndex osMatrix).2))
    ⟨[], [], ∅, ∅⟩)

/-- Lines 135-151: the step-summary text lines. -/
def summaryLines (st : RunState) : List String :=
  ["Total repro jobs: " ++ toString st.matrixEntries.length] ++
  (if st.skipped = [] then [] else
    ["", "Skipped repros:"] ++ st.skipped.map (fun item => "- " ++ item)) ++
  (if st.unknownPlatforms = ∅ then [] else
    ["", "Unknown platforms encountered:"] ++
      (finSort st.unknownPlatforms).map (fun item => "- " ++ item)) ++
  (if st.unknownLabels = ∅ then [] else
    ["", "Unknown labels encountered:"] ++
      (finSort st.unknownLabels).map (fun item => "- " ++ item))

/-- `json.dumps` of a string needing no escapes. -/
def jsonStr (s : String) : String := "\"" ++ s ++ "\""

/-- `json.dumps` of one matrix entry, with the default separators. -/
def jsonEntry (e : MatrixEntry) : String :=
  "\x7b" ++ jsonStr "os" ++ ": " ++ jsonStr e.os ++ ", " ++ jsonStr "repro" ++ ": " ++
    jsonStr e.repro ++ ", " ++ jsonStr "platform" ++ ": " ++ jsonStr e.platform ++ "\x7d"

/-- `json.dumps({"include": entries})` (line 163). -/
def jsonMatrix (entries : List MatrixEntry) : String :=
  "\x7b" ++ jsonStr "include" ++ ": [" ++
    String.intercalate ", " (entries.map jsonEntry) ++ "]\x7d"

/-- `json.dumps` of the skipped list (line 165). -/
def jsonStrList (l : List String) : String :=
  "[" ++ String.intercalate ", " (l.map jsonStr) ++ "]"

/-- Lines 162-165: the three `key=value` lines appended to the pipeline
output file. -/
def outputLines (st : RunState) : List String :=
  ["matrix=" ++ jsonMatrix st.matrixEntries,
   "count=" ++ toString st.matrixEntries.length,
   "skipped=" ++ jsonStrList st.skipped]

/-- The two environment settings the script consults for its outputs. -/
structure Env where
  githubStepSummary : Option String
  githubOutput : Option String

/-- Observable effects of one process run. -/
structure ProgResult where
  exitCode : Nat
  stderrLines : List String
  summaryAppends : List String
  outputAppends : List String

/-- Lines 153-173: the effectful tail of `main` plus the `__main__`
wrapper.  The step summary is appended before the `GITHUB_OUTPUT` check;
a missing `GITHUB_OUTPUT` raises `RuntimeError("GITHUB_OUTPUT is not
defined.")`, which the wrapper prints to stderr with its context prefix
and re-raises, so the process exits non-zero with no pipeline output
written. -/
def program (env : Env) (osMatrix : List (String × List String)) (repros : List Repro) :
    ProgResult :=
  let st := computeRun osMatrix repros
  let summaryAppends :=
    match env.githubStepSummary with
    | some _ => [String.intercalate "\n" (summaryLines st) ++ "\n"]
    | none => []
  match env.githubOutput with
  | none =>
    { exitCode := 1,
      stderrLines := ["Failed to compose repro matrix: GITHUB_OUTPUT is not defined."],
      summaryAppends := summaryAppends,
      outputAppends := [] }
  | some _ =>
    { exitCode := 0, stderrLines := [], summaryAppends := summaryAppends,
      outputAppends := (outputLines st).map (fun l => l ++ "\n") }

/-- Union of the per-case contributions of a list of cases. -/
def unionOver (rs : List Repro) (f : Repro → Finset String) : Finset String :=
  rs.foldr (fun r acc => f r ∪ acc) ∅

/-- The label universe of a platform map: every label declared under any
platform. -/
def labelUniverse (m : List (String × List String)) : Finset String :=
  m.foldr (fun p acc => p.2.toFinset ∪ acc) ∅

/-- A well-formed platform map: no label is declared under two different
entries. -/
def WellFormedMap (m : List (String × List String)) : Prop :=
  m.Pairwise fun p q => ∀ l ∈ p.2, l ∉ q.2

instance (m : List (String × List String)) : Decidable (WellFormedMap m) :=
  inferInstanceAs (Decidable (List.Pairwise _ _))

/-- Two entries differ on the sort key `(repro, os)`. -/
def keyNe (a b : MatrixEntry) : Prop := ¬ (a.repro = b.repro ∧ a.os = b.os)

instance : DecidableRel keyNe := fun _ _ => inferInstanceAs (Decidable (¬ _))

/-- Replace the `supports` field of a case by an absent one. -/
def dropSupports (r : Repro) : Repro := ⟨r.name, r.id, JField.absent, r.os⟩

/-- Append one further identifier to the `excludePlatforms` list of a
case. -/
def addExcludePlatform (r : Repro) (items : List JVal) (x : String) : Repro :=
  ⟨r.name, r.id, r.supports,
    ⟨r.os.includePlatforms, r.os.includeLabels, JField.list (items ++ [JVal.str x]),
      r.os.excludeLabels, r.os.otherKeys⟩⟩

/-- The platform map of the spec scenarios. -/
def mapLW : List (String × List String) :=
  [("linux", ["ubuntu-latest"]), ("windows", ["windows-latest"])]

/-- An `os` object with no constraints. -/
def osNone : OsDict := ⟨JField.absent, JField.absent, JField.absent, JField.absent, false⟩

/-- Scenario 1 of the spec: a case with no `supports` and no `os`. -/
def reproT1 : Repro := ⟨some "t1", none, JField.absent, osNone⟩

/-- Scenario 3 of the spec: `t3` supports linux but excludes its only
label. -/
def reproT3 : Repro :=
  ⟨some "t3", none, JField.list [JVal.str "linux"],
    ⟨JField.absent, JField.absent, JField.absent, JField.list [JVal.str "ubuntu-latest"],
      false⟩⟩

/-- Scenario 5 of the spec: `t5` includes only an undeclared label. -/
def reproT5 : Repro :=
  ⟨none, some "t5", JField.absent,
    ⟨JField.absent, JField.list [JVal.str "ghost-runner"], JField.absent, JField.absent,
      false⟩⟩

/-- A one-platform, one-label map. -/
def mapL : List (String × List String) := [("linux", ["u"])]

/-- A case named `t` with no constraints. -/
def reproT : Repro := ⟨some "t", none, JField.absent, osNone⟩

/-- A case whose `supports` is `["any"]` and which excludes label `u`. -/
def reproAnyEx : Repro :=
  ⟨some "t", none, JField.list [JVal.str "any"],
    ⟨JField.absent, JField.absent, JField.absent, JField.list [JVal.str "u"], false⟩⟩

/-- A case with a present but empty `excludePlatforms` list. -/
def reproEx : Repro :=
  ⟨some "t", none, JField.absent,
    ⟨JField.absent, JField.absent, JField.list [], JField.absent, false⟩⟩

/-- A platform map whose two keys collide after lowercasing. -/
def mapDup : List (String × List String) := [("Linux", ["a"]), ("LINUX", ["b"])]

theorem strLe_of_lt {a b : String} (h : strLt a b) : strLe a b := ((strLt_iff a b).mp h).1

theorem strNe_of_lt {a b : String} (h : strLt a b) : a ≠ b := ((strLt_iff a b).mp h).2

theorem strLe_trans {a b c : String} (h1 : strLe a b) (h2 : strLe b c) : strLe a c :=
  charListLe_trans _ _ _ h1 h2

theorem strLe_antisymm {a b : String} (h1 : strLe a b) (h2 : strLe b a) : a = b :=
  IsAntisymm.antisymm a b h1 h2

theorem strLt_trans {a b c : String} (h1 : strLt a b) (h2 : strLt b c) : strLt a c := by
  rw [strLt_iff]
  refine ⟨strLe_trans (strLe_of_lt h1) (strLe_of_lt h2), fun h => ?_⟩
  subst h
  exact strNe_of_lt h1 (strLe_antisymm (strLe_of_lt h1) (strLe_of_lt h2))

instance : IsTotal MatrixEntry entryLe := by
  refine ⟨fun a b => ?_⟩
  by_cases h : a.repro = b.repro
  · rcases charListLe_total a.os.data b.os.data with h2 | h2
    · exact Or.inl (Or.inr ⟨h, h2⟩)
    · exact Or.inr (Or.inr ⟨h.symm, h2⟩)
  · rcases charListLe_total a.repro.data b.repro.data with h2 | h2
    · refine Or.inl (Or.inl ?_)
      rw [strLt_iff]
      exact ⟨h2, h⟩
    · refine Or.inr (Or.inl ?_)
      rw [strLt_iff]
      exact ⟨h2, fun e => h e.symm⟩

instance : IsTrans MatrixEntry entryLe := by
  refine ⟨fun a b c h1 h2 => ?_⟩
  rcases h1 with h1 | ⟨e1, l1⟩
  · rcases h2 with h2 | ⟨e2, l2⟩
    · exact Or.inl (strLt_trans h1 h2)
    · refine Or.inl ?_
      rw [← e2]
      exact h1
  · rcases h2 with h2 | ⟨e2, l2⟩
    · refine Or.inl ?_
      rw [e1]
      exact h2
    · exact Or.inr ⟨e1.trans e2, strLe_trans l1 l2⟩

theorem mem_msortStr (s : Multiset String) (a : String) : a ∈ msortStr s ↔ a ∈ s := by
  induction s using Quot.inductionOn with
  | h l =>
    show a ∈ l.insertionSort strLe ↔ a ∈ (l : Multiset String)
    rw [Multiset.mem_coe]
    exact (List.perm_insertionSort strLe l).mem_iff

theorem mem_finSort (s : Finset String) (a : String) : a ∈ finSort s ↔ a ∈ s := by
  rw [← Finset.mem_val]
  exact mem_msortStr s.val a

theorem msortStr_nodup (s : Multiset String) (h : s.Nodup) : (msortStr s).Nodup := by
  induction s using Quot.inductionOn with
  | h l =>
    have h2 : l.Nodup := h
    exact ((List.perm_insertionSort strLe l).nodup_iff).mpr h2

theorem finSort_nodup (s : Finset String) : (finSort s).Nodup := msortStr_nodup s.val s.nodup

theorem msortStr_sorted (s : Multiset String) : (msortStr s).Sorted strLe := by
  induction s using Quot.inductionOn with
  | h l => exact List.sorted_insertionSort strLe l

theorem finSort_sorted (s : Finset String) : (finSort s).Sorted strLe := msortStr_sorted s.val

theorem dictLookup_insert {α : Type} (d : List (String × α)) (k k' : String) (v : α) :
    dictLookup (dictInsert d k v) k' = if k = k' then some v else dictLookup d k' := by
  induction d with
  | nil => simp [dictInsert, dictLookup]
  | cons p rest ih =>
    by_cases hpk : p.1 = k
    · by_cases hk : k = k'
      · simp [dictInsert, dictLookup, hpk, hk]
      · have hp' : ¬ p.1 = k' := fun h => hk (hpk.symm.trans h)
        have hk2 : ¬ k' = k := fun h => hk h.symm
        simp [dictInsert, dictLookup, hpk, hk, hp', hk2]
    · by_cases hpk' : p.1 = k'
      · have hk : ¬ k = k' := fun h => hpk (by rw [h, ← hpk'])
        have hk2 : ¬ k' = k := fun h => hk h.symm
        simp [dictInsert, dictLookup, hpk, hpk', hk, hk2]
      · simp [dictInsert, dictLookup, hpk, hpk', ih]

theorem dictLookup_eq_none_iff {α : Type} (d : List (String × α)) (k : String) :
    dictLookup d k = none ↔ k ∉ dictKeys d := by
  induction d with
  | nil => simp [dictLookup, dictKeys]
  | cons p rest ih =>
    simp only [dictLookup, dictKeys, List.map_cons, List.mem_cons]
    by_cases hpk : p.1 = k
    · simp [hpk]
    · rw [if_neg hpk, ih]
      unfold dictKeys
      constructor
      · intro h hmem
        rcases hmem with h1 | h2
        · exact hpk h1.symm
        · exact h h2
      · intro h h2
        exact h (Or.inr h2)

theorem dictLookup_isSome_iff {α : Type} (d : List (String × α)) (k : String) :
    (dictLookup d k).isSome = true ↔ k ∈ dictKeys d := by
  cases h : dictLookup d k with
  | none =>
    simp only [Option.isSome_none, Bool.false_eq_true, false_iff]
    exact (dictLookup_eq_none_iff d k).mp h
  | some v =>
    simp only [Option.isSome_some, true_iff]
    by_contra hk
    rw [(dictLookup_eq_none_iff d k).mpr hk] at h
    cases h

theorem mem_unionOver (rs : List Repro) (f : Repro → Finset String) (a : String) :
    a ∈ unionOver rs f ↔ ∃ r ∈ rs, a ∈ f r := by
  induction rs with
  | nil => simp [unionOver]
  | cons r rest ih => simp [unionOver, Finset.mem_union, ih]; rw [← ih]; simp [unionOver]

theorem subset_unionOver (rs : List Repro) (f : Repro → Finset String) (r : Repro)
    (hr : r ∈ rs) : f r ⊆ unionOver rs f := by
  intro a ha
  exact (mem_unionOver rs f a).mpr ⟨r, hr, ha⟩

theorem processRepro_eq (pl : List (String × List String)) (lp : List (String × String))
    (all : Finset String) (st : RunState) (r : Repro) :
    processRepro pl lp all st r =
      ⟨st.matrixEntries ++ entriesOfCase pl lp all r,
       st.skipped ++ skippedOfCase pl lp all r,
       st.unknownPlatforms ∪ caseUnknownPlatforms pl lp all r,
       st.unknownLabels ∪ caseUnknownLabels pl lp all r⟩ := by
  cases st with
  | mk me sk up ul =>
    unfold processRepro entriesOfCase skippedOfCase caseUnknownPlatforms caseUnknownLabels
    cases hn : reproName r with
    | none => simp
    | some name =>
      by_cases hc : (resolveCase pl lp all r).candidates = ∅ <;> simp [hc]

theorem foldProcess (pl : List (String × List String)) (lp : List (String × String))
    (all : Finset String) (rs : List Repro) (st : RunState) :
    rs.foldl (processRepro pl lp all) st =
      ⟨st.matrixEntries ++ rs.flatMap (entriesOfCase pl lp all),
       st.skipped ++ rs.flatMap (skippedOfCase pl lp all),
       st.unknownPlatforms ∪ unionOver rs (caseUnknownPlatforms pl lp all),
       st.unknownLabels ∪ unionOver rs (caseUnknownLabels pl lp all)⟩ := by
  induction rs generalizing st with
  | nil =>
    cases st with
    | mk me sk up ul => simp [unionOver]
  | cons r rest ih =>
    rw [List.foldl_cons, processRepro_eq, ih]
    cases st with
    | mk me sk up ul =>
      simp [unionOver, List.append_assoc, Finset.union_assoc]

theorem computeRun_matrixEntries (m : List (String × List String)) (rs : List Repro) :
    (computeRun m rs).matrixEntries =
      (rs.flatMap (entriesOfCase (buildIndex m).1 (buildIndex m).2
        (allLabelsOf (buildIndex m).2))).insertionSort entryLe := by
  unfold computeRun sortState
  rw [foldProcess]
  simp

theorem computeRun_skipped (m : List (String × List String)) (rs : List Repro) :
    (computeRun m rs).skipped =
      rs.flatMap (skippedOfCase (buildIndex m).1 (buildIndex m).2
        (allLabelsOf (buildIndex m).2)) := by
  unfold computeRun sortState
  rw [foldProcess]
  simp

theorem computeRun_unknownPlatforms (m : List (String × List String)) (rs : List Repro) :
    (computeRun m rs).unknownPlatforms =
      unionOver rs (caseUnknownPlatforms (buildIndex m).1 (buildIndex m).2
        (allLabelsOf (buildIndex m).2)) := by
  unfold computeRun sortState
  rw [foldProcess]
  simp

theorem computeRun_unknownLabels (m : List (String × List String)) (rs : List Repro) :
    (computeRun m rs).unknownLabels =
      unionOver rs (caseUnknownLabels (buildIndex m).1 (buildIndex m).2
        (allLabelsOf (buildIndex m).2)) := by
  unfold computeRun sortState
  rw [foldProcess]
  simp

theorem dictLookup_innerFold (n : String) (ls : List String)
    (acc : List (String × List String) × List (String × String)) (l : String) :
    dictLookup (ls.foldl (indexInner n) acc).2 l =
      if l ∈ ls then some n else dictLookup acc.2 l := by
  induction ls generalizing acc with
  | nil => simp
  | cons x rest ih =>
    rw [List.foldl_cons, ih]
    by_cases hr : l ∈ rest
    · simp [hr]
    · have hstep : dictLookup (indexInner n acc x).2 l =
          if x = l then some n else dictLookup acc.2 l := dictLookup_insert acc.2 x l n
      rw [if_neg hr, hstep]
      by_cases hx : x = l
      · rw [if_pos hx, if_pos (List.mem_cons.mpr (Or.inl hx.symm))]
      · have hnot : ¬ l ∈ x :: rest := by
          intro hcon
          rcases List.mem_cons.mp hcon with h | h
          · exact hx h.symm
          · exact hr h
        rw [if_neg hx, if_neg hnot]

theorem dictLookup_indexStep (acc : List (String × List String) × List (String × String))
    (p : String × List String) (l : String) :
    dictLookup (indexStep acc p).2 l =
      if l ∈ p.2 then some (lowerStr p.1) else dictLookup acc.2 l := by
  unfold indexStep
  rw [dictLookup_innerFold]

theorem buildFold_lookup_origin (m : List (String × List String))
    (acc : List (String × List String) × List (String × String)) (l : String) (q : String) :
    dictLookup (m.foldl indexStep acc).2 l = some q →
      (∃ p ∈ m, l ∈ p.2 ∧ lowerStr p.1 = q) ∨ dictLookup acc.2 l = some q := by
  induction m generalizing acc with
  | nil => exact fun h => Or.inr h
  | cons p rest ih =>
    intro h
    rw [List.foldl_cons] at h
    rcases ih (indexStep acc p) h with h2 | h2
    · rcases h2 with ⟨p2, hp2, hl2, hq2⟩
      exact Or.inl ⟨p2, List.mem_cons_of_mem p hp2, hl2, hq2⟩
    · rw [dictLookup_indexStep] at h2
      by_cases hl : l ∈ p.2
      · rw [if_pos hl] at h2
        exact Or.inl ⟨p, List.mem_cons_self p rest, hl, Option.some.inj h2⟩
      · rw [if_neg hl] at h2
        exact Or.inr h2

theorem buildFold_lookup_isSome (m : List (String × List String))
    (acc : List (String × List String) × List (String × String)) (l : String) :
    ((∃ p ∈ m, l ∈ p.2) ∨ (dictLookup acc.2 l).isSome = true) →
      (dictLookup (m.foldl indexStep acc).2 l).isSome = true := by
  induction m generalizing acc with
  | nil =>
    rintro (⟨p, hp, _⟩ | h)
    · cases hp
    · exact h
  | cons p rest ih =>
    intro h
    rw [List.foldl_cons]
    refine ih (indexStep acc p) ?_
    rcases h with ⟨p2, hp2, hl2⟩ | h2
    · rcases List.mem_cons.mp hp2 with h3 | h3
      · subst h3
        refine Or.inr ?_
        rw [dictLookup_indexStep, if_pos hl2]
        rfl
      · exact Or.inl ⟨p2, h3, hl2⟩
    · refine Or.inr ?_
      rw [dictLookup_indexStep]
      by_cases hl : l ∈ p.2
      · rw [if_pos hl]; rfl
      · rw [if_neg hl]; exact h2

theorem lp_lookup_origin (m : List (String × List String)) (l q : String)
    (h : dictLookup (buildIndex m).2 l = some q) :
    ∃ p ∈ m, l ∈ p.2 ∧ lowerStr p.1 = q := by
  rcases buildFold_lookup_origin m ([], []) l q h with h2 | h2
  · exact h2
  · cases h2

theorem lp_lookup_isSome (m : List (String × List String)) (l : String)
    (h : ∃ p ∈ m, l ∈ p.2) : (dictLookup (buildIndex m).2 l).isSome = true :=
  buildFold_lookup_isSome m ([], []) l (Or.inl h)

theorem mem_allLabels_iff (m : List (String × List String)) (l : String) :
    l ∈ allLabelsOf (buildIndex m).2 ↔ ∃ p ∈ m, l ∈ p.2 := by
  unfold allLabelsOf
  rw [List.mem_toFinset, ← dictLookup_isSome_iff]
  constructor
  · intro h
    rcases Option.isSome_iff_exists.mp h with ⟨q, hq⟩
    rcases lp_lookup_origin m l q hq with ⟨p, hp, hl, _⟩
    exact ⟨p, hp, hl⟩
  · exact lp_lookup_isSome m l

theorem mem_labelUniverse (m : List (String × List String)) (l : String) :
    l ∈ labelUniverse m ↔ ∃ p ∈ m, l ∈ p.2 := by
  induction m with
  | nil => simp [labelUniverse]
  | cons p rest ih =>
    simp only [labelUniverse, List.foldr_cons, Finset.mem_union, List.mem_toFinset,
      List.mem_cons]
    rw [show rest.foldr (fun p acc => p.2.toFinset ∪ acc) ∅ = labelUniverse rest from rfl, ih]
    constructor
    · rintro (h | ⟨p2, hp2, hl2⟩)
      · exact ⟨p, Or.inl rfl, h⟩
      · exact ⟨p2, Or.inr hp2, hl2⟩
    · rintro ⟨p2, hp2 | hp2, hl2⟩
      · subst hp2; exact Or.inl hl2
      · exact Or.inr ⟨p2, hp2, hl2⟩

theorem allLabels_eq_universe (m : List (String × List String)) :
    allLabelsOf (buildIndex m).2 = labelUniverse m := by
  ext l
  rw [mem_labelUniverse, mem_allLabels_iff]

theorem ite_reason_ne_empty (s : String) :
    (if s = "" then "no matching runners" else s) ≠ "" := by
  by_cases h : s = ""
  · rw [if_pos h]
    decide
  · rw [if_neg h]
    exact h

theorem skipReason_ne_empty (ns : Finset String) (osT : Bool) (lup lul : Finset String) :
    skipReason ns osT lup lul ≠ "" :=
  ite_reason_ne_empty _

/-- C7: with the platform map `{linux: [ubuntu-latest], windows:
[windows-latest]}` and the single case `t3` (`supports` linux,
`excludeLabels` ubuntu-latest), the candidate set is empty, the matrix is
empty with count 0, and the skipped list is exactly the expected reason
string. -/
theorem t3_skipped_exactly :
    (resolveCase (buildIndex mapLW).1 (buildIndex mapLW).2 (allLabelsOf (buildIndex mapLW).2)
        reproT3).candidates = ∅ ∧
    (computeRun mapLW [reproT3]).matrixEntries = [] ∧
    (computeRun mapLW [reproT3]).matrixEntries.length = 0 ∧
    (computeRun mapLW [reproT3]).skipped =
      ["t3 (supports=[\x27linux\x27]; os constraints applied)"] := by
  refine ⟨by decide, by decide, by decide, by decide⟩

/-- C8: when the `GITHUB_OUTPUT` environment setting is absent the program
exits non-zero, writes a diagnostic to the error stream, and writes no
pipeline output lines. -/
theorem missing_output_destination_fatal (env : Env) (m : List (String × List String))
    (rs : List Repro) (h : env.githubOutput = none) :
    (program env m rs).exitCode ≠ 0 ∧ (program env m rs).stderrLines ≠ [] ∧
      (program env m rs).outputAppends = [] := by
  unfold program
  rw [h]
  exact ⟨Nat.one_ne_zero, fun hcon => List.noConfusion hcon, rfl⟩

/-- Concrete instance of the missing-`GITHUB_OUTPUT` failure. -/
theorem missing_output_destination_fatal_w :
    (program ⟨none, none⟩ mapLW [reproT1]).exitCode ≠ 0 ∧
    (program ⟨none, none⟩ mapLW [reproT1]).stderrLines ≠ [] ∧
    (program ⟨none, none⟩ mapLW [reproT1]).outputAppends = [] :=
  missing_output_destination_fatal ⟨none, none⟩ mapLW [reproT1] rfl

/-- C9: when `supports` is absent or normalizes to the empty set, the
candidate set seeded before the `os` constraints equals the full label
universe of the platform map. -/
theorem empty_supports_seeds_universe (m : List (String × List String)) (r : Repro)
    (h : normSupports r = ∅) :
    (stepSupports (buildIndex m).1 (allLabelsOf (buildIndex m).2)
        (normSupports r)).candidates = labelUniverse m := by
  unfold stepSupports
  rw [if_pos (Or.inl h)]
  exact allLabels_eq_universe m

/-- Concrete instance of the full-universe seeding for an absent
`supports`. -/
theorem empty_supports_seeds_universe_w :
    (stepSupports (buildIndex mapLW).1 (allLabelsOf (buildIndex mapLW).2)
        (normSupports reproT1)).candidates = labelUniverse mapLW :=
  empty_supports_seeds_universe mapLW reproT1 (by decide)

/-- C10: with two platform keys that collide after lowercasing, the index
resets the platform's label list to the later key's labels, yet the
earlier key's label stays in `label_platform`; `all_labels` strictly
exceeds the union of the `platform_labels` values, and a case with absent
`supports` emits an entry for a label that appears in no
`platform_labels` list. -/
theorem duplicate_normalized_keys_leak :
    (buildIndex mapDup).1 = [("linux", ["b"])] ∧
    dictLookup (buildIndex mapDup).2 "a" = some "linux" ∧
    allLabelsOf (buildIndex mapDup).2 = {"a", "b"} ∧
    (∀ p ∈ (buildIndex mapDup).1, "a" ∉ p.2) ∧
    (⟨"a", "t", "linux"⟩ : MatrixEntry) ∈ (computeRun mapDup [reproT]).matrixEntries := by
  refine ⟨by decide, by decide, by decide, by decide, by decide⟩

/-- C2: a named case whose final candidate set is empty contributes no
matrix entries and exactly one skipped entry, the name followed by a
parenthesized non-empty reason, and that entry appears in the run's
skipped list. -/
theorem empty_candidates_skipped (m : List (String × List String)) (rs : List Repro)
    (r : Repro) (hr : r ∈ rs) (name : String) (hn : reproName r = some name)
    (hc : (resolveCase (buildIndex m).1 (buildIndex m).2 (allLabelsOf (buildIndex m).2)
        r).candidates = ∅) :
    entriesOfCase (buildIndex m).1 (buildIndex m).2 (allLabelsOf (buildIndex m).2) r = [] ∧
    (∃ reason, reason ≠ "" ∧
      skippedOfCase (buildIndex m).1 (buildIndex m).2 (allLabelsOf (buildIndex m).2) r =
        [name ++ " (" ++ reason ++ ")"] ∧
      name ++ " (" ++ reason ++ ")" ∈ (computeRun m rs).skipped) := by
  have hsk : skippedOfCase (buildIndex m).1 (buildIndex m).2 (allLabelsOf (buildIndex m).2) r =
      [name ++ " (" ++ skipReason (normSupports r) r.os.truthy
        (resolveCase (buildIndex m).1 (buildIndex m).2 (allLabelsOf (buildIndex m).2)
          r).localUnknownPlatforms
        (resolveCase (buildIndex m).1 (buildIndex m).2 (allLabelsOf (buildIndex m).2)
          r).localUnknownLabels ++ ")"] := by
    unfold skippedOfCase
    rw [hn]
    simp [hc]
  refine ⟨?_, ?_⟩
  · unfold entriesOfCase
    rw [hn]
    simp [hc]
  · refine ⟨skipReason (normSupports r) r.os.truthy
      (resolveCase (buildIndex m).1 (buildIndex m).2 (allLabelsOf (buildIndex m).2)
        r).localUnknownPlatforms
      (resolveCase (buildIndex m).1 (buildIndex m).2 (allLabelsOf (buildIndex m).2)
        r).localUnknownLabels,
      skipReason_ne_empty _ _ _ _, hsk, ?_⟩
    rw [computeRun_skipped]
    refine List.mem_flatMap.mpr ⟨r, hr, ?_⟩
    rw [hsk]
    exact List.mem_singleton.mpr rfl

/-- Concrete instance of the empty-candidate skip behaviour, on the `t3`
scenario. -/
theorem empty_candidates_skipped_w :
    entriesOfCase (buildIndex mapLW).1 (buildIndex mapLW).2 (allLabelsOf (buildIndex mapLW).2)
      reproT3 = [] ∧
    (∃ reason, reason ≠ "" ∧
      skippedOfCase (buildIndex mapLW).1 (buildIndex mapLW).2
        (allLabelsOf (buildIndex mapLW).2) reproT3 = ["t3" ++ " (" ++ reason ++ ")"] ∧
      "t3" ++ " (" ++ reason ++ ")" ∈ (computeRun mapLW [reproT3]).skipped) :=
  empty_candidates_skipped mapLW [reproT3] reproT3 (List.mem_singleton.mpr rfl) "t3"
    (by decide) (by decide)

theorem stepIncludeLabels_allUnknown (lp : List (String × String)) (ils : Finset String)
    (hne : ils ≠ ∅) (hunk : ∀ l ∈ ils, dictLookup lp l = none) (s : ResolveState) :
    stepIncludeLabels lp ils s = ⟨∅, s.localUnknownPlatforms, s.localUnknownLabels ∪ ils⟩ := by
  have hrec : ils.filter (fun label => (dictLookup lp label).isSome = true) = ∅ := by
    rw [Finset.filter_eq_empty_iff]
    intro l hl
    rw [hunk l hl]
    simp
  have hall : ils.filter (fun label => dictLookup lp label = none) = ils :=
    Finset.filter_true_of_mem hunk
  simp only [stepIncludeLabels]
  rw [if_neg hne, hrec, hall, if_pos rfl, Finset.inter_empty]

theorem stepExcludePlatforms_empty (pl : List (String × List String)) (eps : Finset String)
    (s : ResolveState) (h : s.candidates = ∅) :
    (stepExcludePlatforms pl eps s).candidates = ∅ := by
  unfold stepExcludePlatforms
  split
  · exact h
  · simp [h]

theorem stepExcludeLabels_empty (lp : List (String × String)) (els : Finset String)
    (s : ResolveState) (h : s.candidates = ∅) :
    (stepExcludeLabels lp els s).candidates = ∅ := by
  unfold stepExcludeLabels
  split
  · exact h
  · simp [h]

theorem stepClamp_empty (all : Finset String) (s : ResolveState) (h : s.candidates = ∅) :
    (stepClamp all s).candidates = ∅ := by
  unfold stepClamp
  simp [h]

theorem stepExcludePlatforms_lul (pl : List (String × List String)) (eps : Finset String)
    (s : ResolveState) :
    (stepExcludePlatforms pl eps s).localUnknownLabels = s.localUnknownLabels := by
  unfold stepExcludePlatforms
  split <;> rfl

theorem stepExcludeLabels_lul_mono (lp : List (String × String)) (els : Finset String)
    (s : ResolveState) :
    s.localUnknownLabels ⊆ (stepExcludeLabels lp els s).localUnknownLabels := by
  unfold stepExcludeLabels
  split
  · exact Finset.Subset.refl _
  · exact Finset.subset_union_left

theorem stepClamp_lul (all : Finset String) (s : ResolveState) :
    (stepClamp all s).localUnknownLabels = s.localUnknownLabels := rfl

/-- C5: when `includeLabels` is non-empty and none of its labels is known,
the candidate set right after the include-labels step is empty (the step
does not no-op), the case's final candidate set is empty, and every
requested label is recorded in the case-local and run-wide unknown-label
sets. -/
theorem all_unknown_include_labels_zero (m : List (String × List String)) (rs : List Repro)
    (r : Repro) (name : String) (hr : r ∈ rs) (hn : reproName r = some name)
    (hne : includeLabelsOf r ≠ ∅)
    (hunk : ∀ l ∈ includeLabelsOf r, dictLookup (buildIndex m).2 l = none) :
    (stepIncludeLabels (buildIndex m).2 (includeLabelsOf r)
        (stepIncludePlatforms (buildIndex m).1 (includePlatformsOf r)
          (stepSupports (buildIndex m).1 (allLabelsOf (buildIndex m).2)
            (normSupports r)))).candidates = ∅ ∧
    (resolveCase (buildIndex m).1 (buildIndex m).2 (allLabelsOf (buildIndex m).2)
        r).candidates = ∅ ∧
    includeLabelsOf r ⊆
      (resolveCase (buildIndex m).1 (buildIndex m).2 (allLabelsOf (buildIndex m).2)
        r).localUnknownLabels ∧
    includeLabelsOf r ⊆ (computeRun m rs).unknownLabels := by
  have hsi := stepIncludeLabels_allUnknown (buildIndex m).2 (includeLabelsOf r) hne hunk
  have h2 : (resolveCase (buildIndex m).1 (buildIndex m).2 (allLabelsOf (buildIndex m).2)
      r).candidates = ∅ := by
    unfold resolveCase
    rw [hsi]
    exact stepClamp_empty _ _ (stepExcludeLabels_empty _ _ _
      (stepExcludePlatforms_empty _ _ _ rfl))
  have h3 : includeLabelsOf r ⊆
      (resolveCase (buildIndex m).1 (buildIndex m).2 (allLabelsOf (buildIndex m).2)
        r).localUnknownLabels := by
    unfold resolveCase
    rw [hsi, stepClamp_lul]
    refine Finset.Subset.trans ?_ (stepExcludeLabels_lul_mono _ _ _)
    rw [stepExcludePlatforms_lul]
    exact Finset.subset_union_right
  refine ⟨?_, h2, h3, ?_⟩
  · rw [hsi]
  · rw [computeRun_unknownLabels]
    have hcase : caseUnknownLabels (buildIndex m).1 (buildIndex m).2
        (allLabelsOf (buildIndex m).2) r =
        (resolveCase (buildIndex m).1 (buildIndex m).2 (allLabelsOf (buildIndex m).2)
          r).localUnknownLabels := by
      unfold caseUnknownLabels
      rw [hn]
    refine Finset.Subset.trans h3 ?_
    rw [← hcase]
    exact subset_unionOver rs _ r hr

/-- Concrete instance of the all-unknown include-labels behaviour, on the
`t5` scenario. -/
theorem all_unknown_include_labels_zero_w :
    (stepIncludeLabels (buildIndex mapLW).2 (includeLabelsOf reproT5)
        (stepIncludePlatforms (buildIndex mapLW).1 (includePlatformsOf reproT5)
          (stepSupports (buildIndex mapLW).1 (allLabelsOf (buildIndex mapLW).2)
            (normSupports reproT5)))).candidates = ∅ ∧
    (resolveCase (buildIndex mapLW).1 (buildIndex mapLW).2 (allLabelsOf (buildIndex mapLW).2)
        reproT5).candidates = ∅ ∧
    includeLabelsOf reproT5 ⊆
      (resolveCase (buildIndex mapLW).1 (buildIndex mapLW).2
        (allLabelsOf (buildIndex mapLW).2) reproT5).localUnknownLabels ∧
    includeLabelsOf reproT5 ⊆ (computeRun mapLW [reproT5]).unknownLabels :=
  all_unknown_include_labels_zero mapLW [reproT5] reproT5 "t5"
    (List.mem_singleton.mpr rfl) (by decide) (by decide) (by decide)

theorem resolveCase_candidates_subset (pl : List (String × List String))
    (lp : List (String × String)) (all : Finset String) (r : Repro) :
    (resolveCase pl lp all r).candidates ⊆ all := by
  unfold resolveCase stepClamp
  exact Finset.inter_subset_right

theorem entriesOfCase_some (pl : List (String × List String)) (lp : List (String × String))
    (all : Finset String) (r : Repro) (name : String) (hn : reproName r = some name) :
    entriesOfCase pl lp all r =
      if (resolveCase pl lp all r).candidates = ∅ then []
      else mkEntries lp name (resolveCase pl lp all r).candidates := by
  unfold entriesOfCase
  rw [hn]

theorem entriesOfCase_spec (pl : List (String × List String)) (lp : List (String × String))
    (all : Finset String) (r : Repro) (e : MatrixEntry)
    (he : e ∈ entriesOfCase pl lp all r) :
    e.os ∈ all ∧ e.platform = (dictLookup lp e.os).getD "" ∧ reproName r = some e.repro := by
  cases hn : reproName r with
  | none =>
    unfold entriesOfCase at he
    rw [hn] at he
    cases he
  | some name =>
    rw [entriesOfCase_some pl lp all r name hn] at he
    by_cases hc : (resolveCase pl lp all r).candidates = ∅
    · rw [if_pos hc] at he
      cases he
    · rw [if_neg hc] at he
      unfold mkEntries at he
      rcases List.mem_map.mp he with ⟨label, hl, hlabel⟩
      subst hlabel
      refine ⟨?_, rfl, rfl⟩
      exact resolveCase_candidates_subset pl lp all r ((mem_finSort _ _).mp hl)

/-- C1: under a well-formed platform map, every emitted entry's label is
declared under exactly the platform the entry names (platform identifiers
compared after lowercase normalization). -/
theorem entry_platform_owns_label (m : List (String × List String)) (rs : List Repro)
    (hwf : WellFormedMap m) (e : MatrixEntry)
    (he : e ∈ (computeRun m rs).matrixEntries) :
    (∃ p ∈ m, e.os ∈ p.2 ∧ lowerStr p.1 = e.platform) ∧
      ∀ p ∈ m, e.os ∈ p.2 → lowerStr p.1 = e.platform := by
  rw [computeRun_matrixEntries] at he
  have he2 := (List.perm_insertionSort entryLe _).mem_iff.mp he
  rcases List.mem_flatMap.mp he2 with ⟨r, hr, hre⟩
  rcases entriesOfCase_spec _ _ _ _ _ hre with ⟨hos, hplat, _⟩
  have hsome : (dictLookup (buildIndex m).2 e.os).isSome = true := by
    rw [dictLookup_isSome_iff]
    exact List.mem_toFinset.mp hos
  rcases Option.isSome_iff_exists.mp hsome with ⟨q, hq⟩
  have hpq : e.platform = q := by
    rw [hplat, hq]
    rfl
  rcases lp_lookup_origin m e.os q hq with ⟨p0, hp0, hl0, hlow0⟩
  have hmain : lowerStr p0.1 = e.platform := by rw [hlow0, hpq]
  have hsymm : Symmetric (fun p q : String × List String => ∀ l ∈ p.2, l ∉ q.2) :=
    fun a b hab l hlb hla => hab l hla hlb
  refine ⟨⟨p0, hp0, hl0, hmain⟩, ?_⟩
  intro p hp hl
  by_cases hpp : p = p0
  · rw [hpp]
    exact hmain
  · exact absurd hl0 (List.Pairwise.forall hsymm hwf hp hp0 hpp e.os hl)

/-- Concrete instance of label ownership, for an entry of the two-platform
scenario. -/
theorem entry_platform_owns_label_w :
    (∃ p ∈ mapLW, "ubuntu-latest" ∈ p.2 ∧ lowerStr p.1 = "linux") ∧
      ∀ p ∈ mapLW, "ubuntu-latest" ∈ p.2 → lowerStr p.1 = "linux" :=
  entry_platform_owns_label mapLW [reproT1] (by decide)
    ⟨"ubuntu-latest", "t1", "linux"⟩ (by decide)

theorem entriesOfCase_pairwise_keyNe (pl : List (String × List String))
    (lp : List (String × String)) (all : Finset String) (r : Repro) :
    (entriesOfCase pl lp all r).Pairwise keyNe := by
  cases hn : reproName r with
  | none =>
    unfold entriesOfCase
    rw [hn]
    exact List.Pairwise.nil
  | some name =>
    rw [entriesOfCase_some pl lp all r name hn]
    by_cases hc : (resolveCase pl lp all r).candidates = ∅
    · rw [if_pos hc]
      exact List.Pairwise.nil
    · rw [if_neg hc]
      unfold mkEntries
      rw [List.pairwise_map]
      refine List.Pairwise.imp ?_ (finSort_nodup _)
      intro a b hab hk
      exact hab hk.2

theorem flatMap_pairwise_keyNe (pl : List (String × List String))
    (lp : List (String × String)) (all : Finset String) (rs : List Repro)
    (h : (rs.filterMap reproName).Nodup) :
    (rs.flatMap (entriesOfCase pl lp all)).Pairwise keyNe := by
  induction rs with
  | nil => exact List.Pairwise.nil
  | cons r rest ih =>
    rw [List.flatMap_cons, List.pairwise_append]
    cases hn : reproName r with
    | none =>
      have hrest : (rest.filterMap reproName).Nodup := by
        simp only [List.filterMap_cons, hn] at h
        exact h
      refine ⟨entriesOfCase_pairwise_keyNe pl lp all r, ih hrest, ?_⟩
      intro x hx y hy
      exfalso
      unfold entriesOfCase at hx
      rw [hn] at hx
      cases hx
    | some name =>
      have h2 : name ∉ rest.filterMap reproName ∧ (rest.filterMap reproName).Nodup := by
        simp only [List.filterMap_cons, hn] at h
        exact ⟨(List.nodup_cons.mp h).1, (List.nodup_cons.mp h).2⟩
      refine ⟨entriesOfCase_pairwise_keyNe pl lp all r, ih h2.2, ?_⟩
      intro x hx y hy
      rcases List.mem_flatMap.mp hy with ⟨r2, hr2, hy2⟩
      rcases entriesOfCase_spec _ _ _ _ _ hx with ⟨_, _, hnx⟩
      rcases entriesOfCase_spec _ _ _ _ _ hy2 with ⟨_, _, hny⟩
      have hxname : x.repro = name := by
        rw [hn] at hnx
        exact (Option.some.inj hnx).symm
      have hymem : y.repro ∈ rest.filterMap reproName :=
        List.mem_filterMap.mpr ⟨r2, hr2, hny⟩
      intro hk
      apply h2.1
      have hyname : y.repro = name := by rw [← hk.1, hxname]
      rw [← hyname]
      exact hymem

/-- C4 (amended): the final matrix list is always sorted ascending,
lexicographically, by the `(repro, os)` key; when all resolved test-case
names are distinct the sort is moreover strict, so no two entries agree on
both fields. -/
theorem matrix_sorted_by_key (m : List (String × List String)) (rs : List Repro) :
    (computeRun m rs).matrixEntries.Pairwise entryLe ∧
      ((rs.filterMap reproName).Nodup →
        (computeRun m rs).matrixEntries.Pairwise entryLt) := by
  constructor
  · rw [computeRun_matrixEntries]
    exact List.sorted_insertionSort entryLe _
  · intro h
    rw [computeRun_matrixEntries]
    have hle : ((rs.flatMap (entriesOfCase (buildIndex m).1 (buildIndex m).2
        (allLabelsOf (buildIndex m).2))).insertionSort entryLe).Pairwise entryLe :=
      List.sorted_insertionSort entryLe _
    have hsymm : ∀ {x y : MatrixEntry}, keyNe x y → keyNe y x :=
      fun hab hk => hab ⟨hk.1.symm, hk.2.symm⟩
    have hne : ((rs.flatMap (entriesOfCase (buildIndex m).1 (buildIndex m).2
        (allLabelsOf (buildIndex m).2))).insertionSort entryLe).Pairwise keyNe :=
      (List.Perm.pairwise_iff hsymm (List.perm_insertionSort entryLe _)).mpr
        (flatMap_pairwise_keyNe _ _ _ rs h)
    refine List.Pairwise.imp ?_ (hle.and hne)
    rintro a b ⟨hab, hk⟩
    rcases hab with h1 | ⟨h1, h2⟩
    · exact Or.inl h1
    · refine Or.inr ⟨h1, ?_⟩
      rw [strLt_iff]
      exact ⟨h2, fun hos => hk ⟨h1, hos⟩⟩

/-- The strictness half of the claim fails as stated: two cases with the
same name produce two entries with identical `(repro, os)` keys in the
final matrix. -/
theorem matrix_strictness_fails :
    ¬ ((computeRun mapL [reproT, reproT]).matrixEntries.Pairwise keyNe) := by decide

/-- Concrete instance of strict sortedness under distinct names. -/
theorem matrix_sorted_by_key_w :
    (computeRun mapLW [reproT1, reproT3]).matrixEntries.Pairwise entryLt :=
  (matrix_sorted_by_key mapLW [reproT1, reproT3]).2 (by decide)

theorem stepSupports_any (pl : List (String × List String)) (all : Finset String)
    (ns : Finset String) (h : ns = ∅ ∨ "any" ∈ ns) :
    stepSupports pl all ns = ⟨all, ∅, ∅⟩ := by
  unfold stepSupports
  rw [if_pos h]

theorem reproName_dropSupports (r : Repro) : reproName (dropSupports r) = reproName r := rfl

theorem resolveCase_dropSupports (pl : List (String × List String))
    (lp : List (String × String)) (all : Finset String) (r : Repro)
    (h : "any" ∈ normSupports r) :
    resolveCase pl lp all (dropSupports r) = resolveCase pl lp all r := by
  unfold resolveCase
  rw [stepSupports_any pl all (normSupports r) (Or.inr h),
    stepSupports_any pl all (normSupports (dropSupports r)) (Or.inl rfl)]
  rfl

theorem entriesOfCase_dropSupports (pl : List (String × List String))
    (lp : List (String × String)) (all : Finset String) (r : Repro)
    (h : "any" ∈ normSupports r) :
    entriesOfCase pl lp all (dropSupports r) = entriesOfCase pl lp all r := by
  unfold entriesOfCase
  rw [resolveCase_dropSupports pl lp all r h, reproName_dropSupports]

theorem caseUnknownPlatforms_dropSupports (pl : List (String × List String))
    (lp : List (String × String)) (all : Finset String) (r : Repro)
    (h : "any" ∈ normSupports r) :
    caseUnknownPlatforms pl lp all (dropSupports r) = caseUnknownPlatforms pl lp all r := by
  unfold caseUnknownPlatforms
  rw [resolveCase_dropSupports pl lp all r h, reproName_dropSupports]

theorem caseUnknownLabels_dropSupports (pl : List (String × List String))
    (lp : List (String × String)) (all : Finset String) (r : Repro)
    (h : "any" ∈ normSupports r) :
    caseUnknownLabels pl lp all (dropSupports r) = caseUnknownLabels pl lp all r := by
  unfold caseUnknownLabels
  rw [resolveCase_dropSupports pl lp all r h, reproName_dropSupports]

theorem skippedOfCase_dropSupports_length (pl : List (String × List String))
    (lp : List (String × String)) (all : Finset String) (r : Repro)
    (h : "any" ∈ normSupports r) :
    (skippedOfCase pl lp all (dropSupports r)).length =
      (skippedOfCase pl lp all r).length := by
  unfold skippedOfCase
  rw [resolveCase_dropSupports pl lp all r h, reproName_dropSupports]
  cases reproName r with
  | none => rfl
  | some name =>
    by_cases hc : (resolveCase pl lp all r).candidates = ∅ <;> simp [hc]

theorem unionOver_cons (r : Repro) (rs : List Repro) (f : Repro → Finset String) :
    unionOver (r :: rs) f = f r ∪ unionOver rs f := rfl

theorem unionOver_append (rs1 rs2 : List Repro) (f : Repro → Finset String) :
    unionOver (rs1 ++ rs2) f = unionOver rs1 f ∪ unionOver rs2 f := by
  induction rs1 with
  | nil => simp [unionOver]
  | cons r rest ih =>
    show f r ∪ unionOver (rest ++ rs2) f = (f r ∪ unionOver rest f) ∪ unionOver rs2 f
    rw [ih, Finset.union_assoc]

/-- The claim fails as stated: with `supports = ["any"]` the skip reason
carries a supports segment that the supports-omitted run lacks, so the
skipped lists differ. -/
theorem any_supports_not_equivalent :
    (computeRun mapL [reproAnyEx]).skipped ≠
      (computeRun mapL [dropSupports reproAnyEx]).skipped := by decide

/-- C3 (amended): replacing a `supports` list whose case-insensitive
normalization contains "any" by omitting `supports` preserves the matrix
entries, both unknown diagnostics sets, and which cases are skipped (the
skipped list keeps its length); only the skip-reason text may differ,
because the supports segment is printed exactly when `supports` was
given. -/
theorem any_supports_equivalent_amended (m : List (String × List String))
    (pre post : List Repro) (r : Repro) (h : "any" ∈ normSupports r) :
    (computeRun m (pre ++ dropSupports r :: post)).matrixEntries =
      (computeRun m (pre ++ r :: post)).matrixEntries ∧
    (computeRun m (pre ++ dropSupports r :: post)).unknownPlatforms =
      (computeRun m (pre ++ r :: post)).unknownPlatforms ∧
    (computeRun m (pre ++ dropSupports r :: post)).unknownLabels =
      (computeRun m (pre ++ r :: post)).unknownLabels ∧
    (computeRun m (pre ++ dropSupports r :: post)).skipped.length =
      (computeRun m (pre ++ r :: post)).skipped.length := by
  refine ⟨?_, ?_, ?_, ?_⟩
  · rw [computeRun_matrixEntries, computeRun_matrixEntries, List.flatMap_append,
      List.flatMap_append, List.flatMap_cons, List.flatMap_cons,
      entriesOfCase_dropSupports _ _ _ r h]
  · rw [computeRun_unknownPlatforms, computeRun_unknownPlatforms, unionOver_append,
      unionOver_append, unionOver_cons, unionOver_cons,
      caseUnknownPlatforms_dropSupports _ _ _ r h]
  · rw [computeRun_unknownLabels, computeRun_unknownLabels, unionOver_append,
      unionOver_append, unionOver_cons, unionOver_cons,
      caseUnknownLabels_dropSupports _ _ _ r h]
  · rw [computeRun_skipped, computeRun_skipped, List.flatMap_append, List.flatMap_append,
      List.flatMap_cons, List.flatMap_cons, List.length_append, List.length_append,
      List.length_append, List.length_append,
      skippedOfCase_dropSupports_length _ _ _ r h]

/-- Concrete instance of the amended supports-"any" equivalence. -/
theorem any_supports_equivalent_amended_w :
    (computeRun mapL ([] ++ dropSupports reproAnyEx :: [])).matrixEntries =
      (computeRun mapL ([] ++ reproAnyEx :: [])).matrixEntries ∧
    (computeRun mapL ([] ++ dropSupports reproAnyEx :: [])).unknownPlatforms =
      (computeRun mapL ([] ++ reproAnyEx :: [])).unknownPlatforms ∧
    (computeRun mapL ([] ++ dropSupports reproAnyEx :: [])).unknownLabels =
      (computeRun mapL ([] ++ reproAnyEx :: [])).unknownLabels ∧
    (computeRun mapL ([] ++ dropSupports reproAnyEx :: [])).skipped.length =
      (computeRun mapL ([] ++ reproAnyEx :: [])).skipped.length :=
  any_supports_equivalent_amended mapL [] [] reproAnyEx (by decide)

theorem charOfNat_toNat {n : Nat} (h : n < 55296) : (Char.ofNat n).toNat = n := by
  simp only [Char.ofNat]
  rw [dif_pos (Or.inl h : n.isValidChar)]
  rfl

theorem toLower_eq_of_upper {c : Char} (h : c.toNat ≥ 65 ∧ c.toNat ≤ 90) :
    c.toLower = Char.ofNat (c.toNat + 32) := by
  simp only [Char.toLower]
  rw [if_pos h]

theorem toLower_eq_of_not_upper {c : Char} (h : ¬ (c.toNat ≥ 65 ∧ c.toNat ≤ 90)) :
    c.toLower = c := by
  simp only [Char.toLower]
  rw [if_neg h]

theorem toLower_toLower (c : Char) : c.toLower.toLower = c.toLower := by
  by_cases h : c.toNat ≥ 65 ∧ c.toNat ≤ 90
  · rw [toLower_eq_of_upper h]
    have hv : (Char.ofNat (c.toNat + 32)).toNat = c.toNat + 32 := charOfNat_toNat (by omega)
    refine toLower_eq_of_not_upper ?_
    intro hcon
    rw [hv] at hcon
    omega
  · rw [toLower_eq_of_not_upper h, toLower_eq_of_not_upper h]

theorem mapLower_idem : ∀ l : List Char,
    (l.map Char.toLower).map Char.toLower = l.map Char.toLower
  | [] => rfl
  | c :: cs => by
    simp only [List.map_cons, toLower_toLower, mapLower_idem cs]

theorem lowerStr_idem (s : String) : lowerStr (lowerStr s) = lowerStr s :=
  congrArg String.mk (mapLower_idem s.data)

theorem strSetLower_append (l1 l2 : List JVal) :
    strSetLower (l1 ++ l2) = strSetLower l1 ∪ strSetLower l2 := by
  unfold strSetLower
  rw [List.filterMap_append, List.toFinset_append]

theorem reproName_addExclude (r : Repro) (items : List JVal) (x : String) :
    reproName (addExcludePlatform r items x) = reproName r := rfl

theorem excludePlatformsOf_add (r : Repro) (items : List JVal) (x : String)
    (hexc : r.os.excludePlatforms = JField.list items) :
    excludePlatformsOf (addExcludePlatform r items x) =
      excludePlatformsOf r ∪ {lowerStr x} := by
  unfold excludePlatformsOf addExcludePlatform
  rw [hexc]
  rw [show ((⟨r.os.includePlatforms, r.os.includeLabels,
      JField.list (items ++ [JVal.str x]), r.os.excludeLabels,
      r.os.otherKeys⟩ : OsDict)).excludePlatforms = JField.list (items ++ [JVal.str x])
    from rfl]
  rw [show (JField.list (items ++ [JVal.str x])).asIterable = items ++ [JVal.str x] from rfl,
    show (JField.list items).asIterable = items from rfl, strSetLower_append]
  rfl

theorem collectLabels_add_unknown (pl : List (String × List String)) (items : Finset String)
    (x : String) (hx : dictLookup pl (lowerStr x) = none) :
    collectLabels pl (items ∪ {lowerStr x}) =
      ((collectLabels pl items).1, (collectLabels pl items).2 ∪ {lowerStr x}) := by
  have hxx : lowerStr (lowerStr x) = lowerStr x := lowerStr_idem x
  unfold collectLabels
  simp only [Prod.mk.injEq]
  constructor
  · ext a
    simp only [Finset.mem_biUnion, Finset.mem_union, Finset.mem_singleton]
    constructor
    · rintro ⟨i, hi | hi, hmem⟩
      · exact ⟨i, hi, hmem⟩
      · subst hi
        rw [hxx, hx] at hmem
        simp at hmem
    · rintro ⟨i, hi, hmem⟩
      exact ⟨i, Or.inl hi, hmem⟩
  · ext a
    simp only [Finset.mem_image, Finset.mem_filter, Finset.mem_union, Finset.mem_singleton]
    constructor
    · rintro ⟨i, ⟨hi | hi, hnone⟩, rfl⟩
      · exact Or.inl ⟨i, ⟨hi, hnone⟩, rfl⟩
      · subst hi
        exact Or.inr hxx
    · rintro (⟨i, ⟨hi, hnone⟩, rfl⟩ | rfl)
      · exact ⟨i, ⟨Or.inl hi, hnone⟩, rfl⟩
      · refine ⟨lowerStr x, ⟨Or.inr rfl, ?_⟩, hxx⟩
        rw [hxx]
        exact hx

theorem stepExcludeLabels_lup (lp : List (String × String)) (els : Finset String)
    (s : ResolveState) :
    (stepExcludeLabels lp els s).localUnknownPlatforms = s.localUnknownPlatforms := by
  unfold stepExcludeLabels
  split <;> rfl

theorem stepExcludePlatforms_add_unknown (pl : List (String × List String))
    (eps : Finset String) (x : String) (hx : dictLookup pl (lowerStr x) = none)
    (s : ResolveState) :
    stepExcludePlatforms pl (eps ∪ {lowerStr x}) s =
      ⟨(stepExcludePlatforms pl eps s).candidates,
       (stepExcludePlatforms pl eps s).localUnknownPlatforms ∪ {lowerStr x},
       (stepExcludePlatforms pl eps s).localUnknownLabels⟩ := by
  have hne : eps ∪ {lowerStr x} ≠ ∅ := by
    intro hcon
    refine Finset.not_mem_empty (lowerStr x) ?_
    rw [← hcon]
    exact Finset.mem_union_right _ (Finset.mem_singleton_self _)
  unfold stepExcludePlatforms
  rw [if_neg hne, collectLabels_add_unknown pl eps x hx]
  by_cases he : eps = ∅
  · rw [if_pos he]
    subst he
    simp [collectLabels]
  · rw [if_neg he]
    simp [Finset.union_assoc]

theorem resolveCase_add_unknown_exclude (pl : List (String × List String))
    (lp : List (String × String)) (all : Finset String) (r : Repro) (items : List JVal)
    (x : String) (hexc : r.os.excludePlatforms = JField.list items)
    (hx : dictLookup pl (lowerStr x) = none) :
    resolveCase pl lp all (addExcludePlatform r items x) =
      ⟨(resolveCase pl lp all r).candidates,
       (resolveCase pl lp all r).localUnknownPlatforms ∪ {lowerStr x},
       (resolveCase pl lp all r).localUnknownLabels⟩ := by
  unfold resolveCase
  rw [excludePlatformsOf_add r items x hexc,
    show normSupports (addExcludePlatform r items x) = normSupports r from rfl,
    show includePlatformsOf (addExcludePlatform r items x) = includePlatformsOf r from rfl,
    show includeLabelsOf (addExcludePlatform r items x) = includeLabelsOf r from rfl,
    show excludeLabelsOf (addExcludePlatform r items x) = excludeLabelsOf r from rfl,
    stepExcludePlatforms_add_unknown pl (excludePlatformsOf r) x hx]
  generalize stepExcludePlatforms pl (excludePlatformsOf r)
    (stepIncludeLabels lp (includeLabelsOf r)
      (stepIncludePlatforms pl (includePlatformsOf r)
        (stepSupports pl all (normSupports r)))) = E
  cases E with
  | mk c u l =>
    unfold stepExcludeLabels stepClamp
    by_cases he : excludeLabelsOf r = ∅ <;> simp [he]

theorem entriesOfCase_add_unknown_exclude (pl : List (String × List String))
    (lp : List (String × String)) (all : Finset String) (r : Repro) (items : List JVal)
    (x : String) (hexc : r.os.excludePlatforms = JField.list items)
    (hx : dictLookup pl (lowerStr x) = none) :
    entriesOfCase pl lp all (addExcludePlatform r items x) = entriesOfCase pl lp all r := by
  unfold entriesOfCase
  rw [reproName_addExclude, resolveCase_add_unknown_exclude pl lp all r items x hexc hx]

theorem caseUnknownLabels_add_unknown_exclude (pl : List (String × List String))
    (lp : List (String × String)) (all : Finset String) (r : Repro) (items : List JVal)
    (x : String) (hexc : r.os.excludePlatforms = JField.list items)
    (hx : dictLookup pl (lowerStr x) = none) :
    caseUnknownLabels pl lp all (addExcludePlatform r items x) =
      caseUnknownLabels pl lp all r := by
  unfold caseUnknownLabels
  rw [reproName_addExclude, resolveCase_add_unknown_exclude pl lp all r items x hexc hx]

theorem caseUnknownPlatforms_add_unknown_exclude (pl : List (String × List String))
    (lp : List (String × String)) (all : Finset String) (r : Repro) (items : List JVal)
    (x : String) (name : String) (hexc : r.os.excludePlatforms = JField.list items)
    (hn : reproName r = some name) (hx : dictLookup pl (lowerStr x) = none) :
    caseUnknownPlatforms pl lp all (addExcludePlatform r items x) =
      caseUnknownPlatforms pl lp all r ∪ {lowerStr x} := by
  unfold caseUnknownPlatforms
  rw [reproName_addExclude, resolveCase_add_unknown_exclude pl lp all r items x hexc hx, hn]

theorem skippedOfCase_add_unknown_exclude_length (pl : List (String × List String))
    (lp : List (String × String)) (all : Finset String) (r : Repro) (items : List JVal)
    (x : String) (hexc : r.os.excludePlatforms = JField.list items)
    (hx : dictLookup pl (lowerStr x) = none) :
    (skippedOfCase pl lp all (addExcludePlatform r items x)).length =
      (skippedOfCase pl lp all r).length := by
  unfold skippedOfCase
  rw [reproName_addExclude, resolveCase_add_unknown_exclude pl lp all r items x hexc hx]
  cases reproName r with
  | none => rfl
  | some name =>
    by_cases hc : (resolveCase pl lp all r).candidates = ∅ <;> simp [hc]

/-- The claim fails as stated: adding an unknown platform to
`excludePlatforms` records it in the run-wide unknown-platform
diagnostics, which therefore differ. -/
theorem unknown_exclude_platform_changes_diagnostics :
    (computeRun mapL [addExcludePlatform reproEx [] "bsd"]).unknownPlatforms ≠
      (computeRun mapL [reproEx]).unknownPlatforms := by decide

/-- C6 (amended): adding a platform identifier that is missing from the
platform index to a case's `excludePlatforms` list never changes the
matrix entries, which cases are skipped (the skipped list keeps its
length), or the unknown-label diagnostics; the identifier is however
recorded, lowercased, in the run-wide unknown-platform diagnostics. -/
theorem unknown_exclude_platform_amended (m : List (String × List String))
    (pre post : List Repro) (r : Repro) (items : List JVal) (x : String) (name : String)
    (hexc : r.os.excludePlatforms = JField.list items) (hn : reproName r = some name)
    (hx : dictLookup (buildIndex m).1 (lowerStr x) = none) :
    (computeRun m (pre ++ addExcludePlatform r items x :: post)).matrixEntries =
      (computeRun m (pre ++ r :: post)).matrixEntries ∧
    (computeRun m (pre ++ addExcludePlatform r items x :: post)).skipped.length =
      (computeRun m (pre ++ r :: post)).skipped.length ∧
    (computeRun m (pre ++ addExcludePlatform r items x :: post)).unknownLabels =
      (computeRun m (pre ++ r :: post)).unknownLabels ∧
    (computeRun m (pre ++ addExcludePlatform r items x :: post)).unknownPlatforms =
      (computeRun m (pre ++ r :: post)).unknownPlatforms ∪ {lowerStr x} := by
  refine ⟨?_, ?_, ?_, ?_⟩
  · rw [computeRun_matrixEntries, computeRun_matrixEntries, List.flatMap_append,
      List.flatMap_append, List.flatMap_cons, List.flatMap_cons,
      entriesOfCase_add_unknown_exclude _ _ _ r items x hexc hx]
  · rw [computeRun_skipped, computeRun_skipped, List.flatMap_append, List.flatMap_append,
      List.flatMap_cons, List.flatMap_cons, List.length_append, List.length_append,
      List.length_append, List.length_append,
      skippedOfCase_add_unknown_exclude_length _ _ _ r items x hexc hx]
  · rw [computeRun_unknownLabels, computeRun_unknownLabels, unionOver_append,
      unionOver_append, unionOver_cons, unionOver_cons,
      caseUnknownLabels_add_unknown_exclude _ _ _ r items x hexc hx]
  · rw [computeRun_unknownPlatforms, computeRun_unknownPlatforms, unionOver_append,
      unionOver_append, unionOver_cons, unionOver_cons,
      caseUnknownPlatforms_add_unknown_exclude _ _ _ r items x name hexc hn hx]
    ext a
    simp only [Finset.mem_union, Finset.mem_singleton]
    tauto

/-- Concrete instance of the amended unknown-exclusion property. -/
theorem unknown_exclude_platform_amended_w :
    (computeRun mapL ([] ++ addExcludePlatform reproEx [] "bsd" :: [])).matrixEntries =
      (computeRun mapL ([] ++ reproEx :: [])).matrixEntries ∧
    (computeRun mapL ([] ++ addExcludePlatform reproEx [] "bsd" :: [])).skipped.length =
      (computeRun mapL ([] ++ reproEx :: [])).skipped.length ∧
    (computeRun mapL ([] ++ addExcludePlatform reproEx [] "bsd" :: [])).unknownLabels =
      (computeRun mapL ([] ++ reproEx :: [])).unknownLabels ∧
    (computeRun mapL ([] ++ addExcludePlatform reproEx [] "bsd" :: [])).unknownPlatforms =
      (computeRun mapL ([] ++ reproEx :: [])).unknownPlatforms ∪ {lowerStr "bsd"} :=
  unknown_exclude_platform_amended mapL [] [] reproEx [] "bsd" "t" rfl (by decide) (by decide)

end ComposeReproMatrix
